import Mathlib

/-!
Verification of the kg-microbe merge/dedup engine.

The repository's merge core is a set of DuckDB SQL scripts:
`kg_microbe/utils/mega_merge.sh`, `kg_microbe/utils/clean_edges.sql`,
`kg_microbe/merge_utils/duckdb/create_feat_CHEBI.sql`,
`kg_microbe/merge_utils/duckdb/duckdb_select_genome_feat.sql`, and an
earlier chain script (`unnamed/part_008`).  This file gives a shallow
embedding of those scripts over lists of rows and proves or refutes the
specification's claims about them.

Embedding conventions:
- a table is a `List` of row structures, in file/insertion order;
- SQL `LIKE 'p%'` is `strStarts p s`;
- DuckDB `split_part(s, ':', 1)` is `splitPart1`;
- `ROW_NUMBER() OVER (PARTITION BY key ORDER BY rank)` with `rn = 1`
  keeps, per key, the first row attaining the minimal rank (the scripts
  rely on row-number order for ties, which the spec's design notes also
  record); this is `selAux` with `stableKeep`;
- joins are nested-loop list joins, `SELECT DISTINCT` is `List.dedup`.
-/

/-- Does the character list `p` start the character list `l`?
Used to model the SQL pattern test `s LIKE 'p%'`. -/
def dataStarts : List Char → List Char → Bool
  | [], _ => true
  | _ :: _, [] => false
  | c :: cs, d :: ds => decide (c = d) && dataStarts cs ds

/-- Models the SQL pattern test `s LIKE p || '%'`. -/
def strStarts (p s : String) : Bool :=
  dataStarts p.data s.data

/-- Characters of a list up to (not including) the first colon. -/
def upToColon : List Char → List Char
  | [] => []
  | c :: cs => if c = ':' then [] else c :: upToColon cs

/-- Models DuckDB `split_part(s, ':', 1)`: the text before the first
colon, or the whole string when there is no colon. -/
def splitPart1 (s : String) : String :=
  String.mk (upToColon s.data)

/-- A row of the node tables read by `mega_merge.sh` (`raw_nodes`,
loaded with `union_by_name=true` and `filename=true`).  The columns
modelled are the ones the merge logic and the claims touch; the
remaining union-schema columns are carried unchanged by the scripts. -/
structure NodeRow where
  id : String
  category : String
  name : String
  description : String
  xref : String
  provided_by : String
  synonym : String
  iri : String
  subsets : String
  filename : String
deriving DecidableEq

/-- A row of the edge tables read by `mega_merge.sh` (`raw_edges`).
The `filename` column comes from `read_csv(..., filename=true)`. -/
structure EdgeRow where
  id : String
  subject : String
  predicate : String
  object : String
  relation : String
  knowledge_source : String
  meta : String
  primary_knowledge_source : String
  filename : String
deriving DecidableEq

/-- The node priority of `mega_merge.sh` line 100:
`CASE WHEN filename LIKE 'data/duckdb/merged%' THEN 1 ELSE 2 END`. -/
def nodeRank (r : NodeRow) : Nat :=
  if strStarts "data/duckdb/merged" r.filename then 1 else 2

/-- The predicate priority `CASE` of `mega_merge.sh` lines 248-255 (the
same `CASE` appears in `clean_edges.sql` and in the humanasahost merge
script).  Note that `METPO:2000103` is not mentioned and so falls into
the `ELSE 6` branch. -/
def predRank (p : String) : Nat :=
  if p = "biolink:has_chemical_role" then 1
  else if p = "biolink:subclass_of" then 2
  else if p = "biolink:capable_of" then 3
  else if p = "biolink:can_be_carried_out_by" then 4
  else if p = "biolink:superclass_of" then 5
  else 6

/-- The dedup key of the edge table: `PARTITION BY subject, object`. -/
def edgeKey (e : EdgeRow) : String × String :=
  (e.subject, e.object)

/-- The rank by which edges sharing a key are ordered. -/
def edgeRank (e : EdgeRow) : Nat :=
  predRank e.predicate

/-- The fan-out exemption of the `QUALIFY` clause, `mega_merge.sh`
lines 260-267: `(split_part(subject) = 'NCBITaxon' AND
split_part(object) = 'CHEBI') OR (split_part(subject) = 'RHEA' AND
split_part(object) = 'CHEBI')`.  It depends only on the key. -/
def exemptKey (k : String × String) : Bool :=
  (decide (splitPart1 k.1 = "NCBITaxon") && decide (splitPart1 k.2 = "CHEBI"))
  || (decide (splitPart1 k.1 = "RHEA") && decide (splitPart1 k.2 = "CHEBI"))

/-- The hard-pruning condition of the `DELETE` statement,
`mega_merge.sh` lines 271-273: `subject LIKE 'UniprotKB:%' AND object
LIKE 'NCBITaxon:%'`.  It depends only on the key. -/
def pruneKey (k : String × String) : Bool :=
  strStarts "UniprotKB:" k.1 && strStarts "NCBITaxon:" k.2

/-- `ROW_NUMBER() OVER (PARTITION BY key ORDER BY rank) = 1` for the
row `r` sitting between `pre` (earlier rows) and `suf` (later rows):
no earlier same-key row has rank `≤ rank r` and no later same-key row
has rank `< rank r`, i.e. `r` is the first row of its key group
attaining the group's minimal rank (ties broken by row order). -/
def stableKeep {α κ : Type} [DecidableEq κ] (key : α → κ) (rank : α → Nat)
    (pre : List α) (r : α) (suf : List α) : Bool :=
  pre.all (fun s => !(decide (key s = key r) && decide (rank s ≤ rank r)))
  && suf.all (fun s => !(decide (key s = key r) && decide (rank s < rank r)))

/-- Traverse a table row by row, keeping a row exactly when `keepF`
accepts it in its context of earlier (`pre`) and later rows. -/
def selAux {α : Type} (keepF : List α → α → List α → Bool) :
    List α → List α → List α
  | _, [] => []
  | pre, r :: suf =>
    (if keepF pre r suf then [r] else []) ++ selAux keepF (pre ++ [r]) suf

/-- The node dedup of `mega_merge.sh` lines 93-104: per `id`, keep the
single row with `rn = 1` under
`ROW_NUMBER() OVER (PARTITION BY id ORDER BY CASE filename ...)`. -/
def nodesDedup (rows : List NodeRow) : List NodeRow :=
  selAux (stableKeep NodeRow.id nodeRank) [] rows

/-- The `QUALIFY` keep-condition of `mega_merge.sh` lines 258-268:
`(rn = 1 AND NOT exempt) OR exempt`. -/
def edgeKeepF (pre : List EdgeRow) (r : EdgeRow) (suf : List EdgeRow) : Bool :=
  (stableKeep edgeKey edgeRank pre r suf && !exemptKey (edgeKey r))
  || exemptKey (edgeKey r)

/-- The edge table produced by the `CREATE OR REPLACE TABLE edges`
statement of `mega_merge.sh` lines 242-268 (dedup with fan-out
exemption, before the `DELETE`). -/
def edgesQualify (rows : List EdgeRow) : List EdgeRow :=
  selAux edgeKeepF [] rows

/-- The merged edge output of `mega_merge.sh`: the `QUALIFY` dedup
followed by the `DELETE` of UniprotKB-to-NCBITaxon edges. -/
def mergedEdges (rows : List EdgeRow) : List EdgeRow :=
  (edgesQualify rows).filter (fun e => !pruneKey (edgeKey e))

/-- The merged edge output in the order of `clean_edges.sql`: the
`DELETE` of UniprotKB-to-NCBITaxon edges first, then the same
`QUALIFY` dedup. -/
def mergedEdgesDeleteFirst (rows : List EdgeRow) : List EdgeRow :=
  edgesQualify (rows.filter (fun e => !pruneKey (edgeKey e)))

/-- The first element of a list attaining the minimal value of `rank`,
if any.  This is the specification-level description of the
`ROW_NUMBER ... rn = 1` winner of one key group. -/
def firstMinBy {α : Type} (rank : α → Nat) : List α → Option α
  | [] => none
  | r :: rest =>
    match firstMinBy rank rest with
    | none => some r
    | some s => if rank s < rank r then some s else some r

/-- Modelled from the claim's own words (spec §4.3 priority table as
quoted by the claim): the rank table with `METPO:2000103` at rank 3
alongside `biolink:capable_of`.  Used only to compare the claim's
table with the `CASE` the code actually contains (`predRank`). -/
def claimPredRank (p : String) : Nat :=
  if p = "biolink:has_chemical_role" then 1
  else if p = "biolink:subclass_of" then 2
  else if p = "biolink:capable_of" then 3
  else if p = "METPO:2000103" then 3
  else if p = "biolink:can_be_carried_out_by" then 4
  else if p = "biolink:superclass_of" then 5
  else 6

/-- Nested-loop list join: all pairs of `l₁ × l₂` satisfying `cond`,
projected through `out`.  Models a SQL inner `JOIN ... ON cond`. -/
def joinOn {α β γ : Type} (l₁ : List α) (l₂ : List β)
    (cond : α → β → Bool) (out : α → β → γ) : List γ :=
  l₁.flatMap (fun a => (l₂.filter (cond a)).map (out a))

/-! ### The Taxon-to-CHEBI chain of `unnamed/part_008`

`part_008` loads the merged edge file keeping Proteomes-to-NCBITaxon,
UniprotKB-to-Proteomes, UniprotKB-to-RHEA and (has_output)
RHEA-to-CHEBI edges, builds `Step2 = (UniprotKB, Proteomes,
NCBITaxon)` and then joins `CHEBI_Edges` directly on
`chebi.subject = s2.UniprotKB`. -/

/-- The `edges` table of `part_008` lines 5-11. -/
def p8Edges (rows : List EdgeRow) : List EdgeRow :=
  rows.filter (fun e =>
    (strStarts "Proteomes:" e.subject && strStarts "NCBITaxon:" e.object)
    || (strStarts "UniprotKB:" e.subject && strStarts "Proteomes:" e.object)
    || (strStarts "UniprotKB:" e.subject && strStarts "RHEA:" e.object)
    || (strStarts "RHEA:" e.subject && strStarts "CHEBI:" e.object
        && decide (e.predicate = "biolink:has_output")))

/-- `Step1` of `part_008`: `(Proteomes, NCBITaxon)` pairs. -/
def p8Step1 (rows : List EdgeRow) : List (String × String) :=
  ((p8Edges rows).filter (fun e =>
    strStarts "Proteomes:" e.subject && strStarts "NCBITaxon:" e.object)).map
    (fun e => (e.subject, e.object))

/-- `FilteredUniprotKB` of `part_008`: `(UniprotKB, Proteomes)` pairs
(every edge whose subject is a UniprotKB CURIE). -/
def p8FilteredUniprotKB (rows : List EdgeRow) : List (String × String) :=
  ((p8Edges rows).filter (fun e => strStarts "UniprotKB:" e.subject)).map
    (fun e => (e.subject, e.object))

/-- `Step2` of `part_008`: `(UniprotKB, Proteomes, NCBITaxon)` from
`FilteredUniprotKB JOIN Step1 ON f.Proteomes = s1.Proteomes`. -/
def p8Step2 (rows : List EdgeRow) : List (String × String × String) :=
  joinOn (p8FilteredUniprotKB rows) (p8Step1 rows)
    (fun f s => decide (f.2 = s.1)) (fun f s => (f.1, f.2, s.2))

/-- `CHEBI_Edges` of `part_008` lines 44-47: `(subject, object)` of
edges with a CHEBI object and predicate `biolink:has_output`. -/
def p8ChebiEdges (rows : List EdgeRow) : List (String × String) :=
  ((p8Edges rows).filter (fun e =>
    strStarts "CHEBI:" e.object
    && decide (e.predicate = "biolink:has_output"))).map
    (fun e => (e.subject, e.object))

/-- `CHEBI_Joined` of `part_008` lines 50-53: `SELECT DISTINCT
s2.NCBITaxon, chebi.object FROM CHEBI_Edges chebi JOIN Step2 s2 ON
chebi.subject = s2.UniprotKB`.  The join condition compares the RHEA
subject of a CHEBI edge with the UniprotKB column of `Step2`. -/
def p8ChebiJoined (rows : List EdgeRow) : List (String × String) :=
  (joinOn (p8ChebiEdges rows) (p8Step2 rows)
    (fun c s => decide (c.1 = s.1)) (fun c s => (s.2.2, c.2))).dedup

/-! ### The Taxon-to-CHEBI chain of `create_feat_CHEBI.sql` -/

/-- The `edges` table of `create_feat_CHEBI.sql` lines 6-12: only
`subject, object` are kept and the RHEA-to-CHEBI hop carries no
predicate filter. -/
def cfEdges (rows : List EdgeRow) : List (String × String) :=
  (rows.filter (fun e =>
    (strStarts "Proteomes:" e.subject && strStarts "NCBITaxon:" e.object)
    || (strStarts "UniprotKB:" e.subject && strStarts "Proteomes:" e.object)
    || (strStarts "UniprotKB:" e.subject && strStarts "RHEA:" e.object)
    || (strStarts "RHEA:" e.subject && strStarts "CHEBI:" e.object))).map
    (fun e => (e.subject, e.object))

/-- `Step1` of `create_feat_CHEBI.sql`: `(Proteomes, NCBITaxon)`. -/
def cfStep1 (rows : List EdgeRow) : List (String × String) :=
  (cfEdges rows).filter (fun p =>
    strStarts "Proteomes:" p.1 && strStarts "NCBITaxon:" p.2)

/-- `FilteredUniprotKB` of `create_feat_CHEBI.sql`. -/
def cfFilteredUniprotKB (rows : List EdgeRow) : List (String × String) :=
  (cfEdges rows).filter (fun p => strStarts "UniprotKB:" p.1)

/-- `Step2` of `create_feat_CHEBI.sql`: `(UniprotKB, Proteomes,
NCBITaxon)`. -/
def cfStep2 (rows : List EdgeRow) : List (String × String × String) :=
  joinOn (cfFilteredUniprotKB rows) (cfStep1 rows)
    (fun f s => decide (f.2 = s.1)) (fun f s => (f.1, f.2, s.2))

/-- `RHEA_Edges` of `create_feat_CHEBI.sql` lines 39-42:
`(subject, RHEA)` pairs whose subject occurs in `FilteredUniprotKB`. -/
def cfRheaEdges (rows : List EdgeRow) : List (String × String) :=
  (cfEdges rows).filter (fun p =>
    strStarts "RHEA:" p.2
    && (cfFilteredUniprotKB rows).any (fun f => decide (f.1 = p.1)))

/-- `CHEBI_Edges` of `create_feat_CHEBI.sql` lines 48-51:
`(RHEA, CHEBI)` pairs whose RHEA occurs in `RHEA_Edges`. -/
def cfChebiEdges (rows : List EdgeRow) : List (String × String) :=
  (cfEdges rows).filter (fun p =>
    strStarts "CHEBI:" p.2
    && (cfRheaEdges rows).any (fun r => decide (r.2 = p.1)))

/-- The left-deep pair of the final join of `create_feat_CHEBI.sql`:
`CHEBI_Edges chebi JOIN RHEA_Edges rhea ON chebi.RHEA = rhea.RHEA`. -/
def cfChebiRhea (rows : List EdgeRow) :
    List ((String × String) × (String × String)) :=
  joinOn (cfChebiEdges rows) (cfRheaEdges rows)
    (fun c r => decide (c.1 = r.2)) (fun c r => (c, r))

/-- `CHEBI_Joined` of `create_feat_CHEBI.sql` lines 55-59:
`SELECT DISTINCT s2.NCBITaxon, chebi.CHEBI` after also joining
`Step2 ON rhea.subject = s2.UniprotKB`. -/
def cfChebiJoined (rows : List EdgeRow) : List (String × String) :=
  (joinOn (cfChebiRhea rows) (cfStep2 rows)
    (fun cr s => decide (cr.2.1 = s.1))
    (fun cr s => (s.2.2, cr.1.2))).dedup

/-- `CHEBI_Joined_Part1` of `create_feat_CHEBI.sql` lines 64-67.  The
DuckDB 64-bit `hash` is modelled as an arbitrary function `h`; the
shard test `abs(hash(NCBITaxon) % 2) = 0` becomes `h taxon % 2 = 0`. -/
def cfPart1 (rows : List EdgeRow) (h : String → Nat) : List (String × String) :=
  ((cfChebiJoined rows).filter (fun p => decide (h p.1 % 2 = 0))).dedup

/-- `CHEBI_Joined_Part2` of `create_feat_CHEBI.sql` lines 75-78. -/
def cfPart2 (rows : List EdgeRow) (h : String → Nat) : List (String × String) :=
  ((cfChebiJoined rows).filter (fun p => decide (h p.1 % 2 = 1))).dedup

/-! ### The Taxon-to-EC chain of `duckdb_select_genome_feat.sql` -/

/-- The `edges` table of `duckdb_select_genome_feat.sql` lines 7-12. -/
def gfEdges (rows : List EdgeRow) : List EdgeRow :=
  rows.filter (fun e =>
    (strStarts "Proteomes:" e.subject && strStarts "NCBITaxon:" e.object)
    || strStarts "UniprotKB:" e.subject
    || (strStarts "EC:" e.object || strStarts "GO:" e.object
        || strStarts "RHEA:" e.object))

/-- `Step1` of `duckdb_select_genome_feat.sql`. -/
def gfStep1 (rows : List EdgeRow) : List (String × String) :=
  ((gfEdges rows).filter (fun e =>
    strStarts "Proteomes:" e.subject && strStarts "NCBITaxon:" e.object)).map
    (fun e => (e.subject, e.object))

/-- `Step2` of `duckdb_select_genome_feat.sql` lines 23-27: the
`WHERE e2.subject LIKE 'UniprotKB:%'` of the join is applied as a
filter on the `e2` side, which is equivalent for an inner join. -/
def gfStep2 (rows : List EdgeRow) : List (String × String × String) :=
  joinOn (((gfEdges rows).filter (fun e =>
      strStarts "UniprotKB:" e.subject)).map (fun e => (e.subject, e.object)))
    (gfStep1 rows)
    (fun f s => decide (f.2 = s.1)) (fun f s => (f.1, f.2, s.2))

/-- `EC_Edges` of `duckdb_select_genome_feat.sql` lines 32-35. -/
def gfECEdges (rows : List EdgeRow) : List (String × String) :=
  ((gfEdges rows).filter (fun e => strStarts "EC:" e.object)).map
    (fun e => (e.subject, e.object))

/-- `EC_Joined` of `duckdb_select_genome_feat.sql` lines 50-53:
`SELECT s2.NCBITaxon, ec.subject AS UniprotKB, ec.object AS EC` —
three columns, and no `DISTINCT`. -/
def gfECJoined (rows : List EdgeRow) : List (String × String × String) :=
  joinOn (gfECEdges rows) (gfStep2 rows)
    (fun ec s => decide (ec.1 = s.1)) (fun ec s => (s.2.2, ec.1, ec.2))

/-- An edge row with only subject/predicate/object set, as the chain
scripts read them from the merged TSV. -/
def mkE (s p o : String) : EdgeRow :=
  ⟨"", s, p, o, "", "", "", "", ""⟩

/-- The four edges of the spec's Scenario 5 (chain reduction). -/
def scenario5 : List EdgeRow :=
  [mkE "Proteomes:UP1" "biolink:derives_from" "NCBITaxon:562",
   mkE "UniprotKB:X" "biolink:derives_from" "Proteomes:UP1",
   mkE "UniprotKB:X" "biolink:participates_in" "RHEA:R1",
   mkE "RHEA:R1" "biolink:has_output" "CHEBI:C1"]

/-! ### General lemmas about the dedup engine -/

theorem selAux_sublist {α : Type} (keepF : List α → α → List α → Bool) :
    ∀ (l pre : List α), (selAux keepF pre l).Sublist l := by
  intro l
  induction l with
  | nil => intro pre; simp [selAux]
  | cons r suf ih =>
    intro pre
    cases h : keepF pre r suf with
    | false => simpa [selAux, h] using (ih (pre ++ [r])).cons r
    | true => simpa [selAux, h] using (ih (pre ++ [r])).cons₂ r

theorem dataStarts_exists :
    ∀ (p l : List Char), dataStarts p l = true → ∃ t, l = p ++ t := by
  intro p
  induction p with
  | nil => exact fun l _ => ⟨l, rfl⟩
  | cons c cs ih =>
    intro l h
    cases l with
    | nil => simp [dataStarts] at h
    | cons d ds =>
      simp only [dataStarts, Bool.and_eq_true, decide_eq_true_eq] at h
      obtain ⟨t, ht⟩ := ih ds h.2
      exact ⟨t, by simp [h.1, ht]⟩

theorem splitPart1_of_uniprot (s : String)
    (h : strStarts "UniprotKB:" s = true) : splitPart1 s = "UniprotKB" := by
  obtain ⟨t, ht⟩ := dataStarts_exists _ _ h
  unfold splitPart1
  rw [ht]
  rfl

/-- A key hit by the hard-pruning `DELETE` is never fan-out exempt:
its subject starts with `UniprotKB:`, so its subject CURIE prefix is
`UniprotKB`, not `NCBITaxon` or `RHEA`. -/
theorem exempt_of_prune_false (k : String × String)
    (h : pruneKey k = true) : exemptKey k = false := by
  simp only [pruneKey, Bool.and_eq_true] at h
  have h1 := splitPart1_of_uniprot k.1 h.1
  simp [exemptKey, h1]

theorem selAux_nil {α : Type} (keepF : List α → α → List α → Bool)
    (pre : List α) : selAux keepF pre [] = [] := rfl

theorem selAux_cons {α : Type} (keepF : List α → α → List α → Bool)
    (pre : List α) (r : α) (suf : List α) :
    selAux keepF pre (r :: suf) =
      (if keepF pre r suf then [r] else []) ++ selAux keepF (pre ++ [r]) suf := rfl

theorem firstMinBy_eq_none {α : Type} (rank : α → Nat) :
    ∀ l : List α, firstMinBy rank l = none → l = [] := by
  intro l h
  cases l with
  | nil => rfl
  | cons x xs =>
    exfalso
    unfold firstMinBy at h
    cases h2 : firstMinBy rank xs with
    | none => rw [h2] at h; simp at h
    | some y => rw [h2] at h; by_cases h3 : rank y < rank x <;> simp [h3] at h

theorem firstMinBy_mem {α : Type} (rank : α → Nat) :
    ∀ (l : List α) (s : α), firstMinBy rank l = some s → s ∈ l := by
  intro l
  induction l with
  | nil => intro s h; simp [firstMinBy] at h
  | cons r rest ih =>
    intro s h
    unfold firstMinBy at h
    cases hm : firstMinBy rank rest with
    | none => rw [hm] at h; simp at h; simp [h]
    | some w =>
      rw [hm] at h
      by_cases hlt : rank w < rank r
      · simp [hlt] at h
        exact List.mem_cons_of_mem r (h ▸ ih w hm)
      · simp [hlt] at h; simp [h]

theorem firstMinBy_le {α : Type} (rank : α → Nat) :
    ∀ (l : List α) (s : α), firstMinBy rank l = some s →
      ∀ t ∈ l, rank s ≤ rank t := by
  intro l
  induction l with
  | nil => intro s h; simp [firstMinBy] at h
  | cons r rest ih =>
    intro s h t ht
    unfold firstMinBy at h
    cases hm : firstMinBy rank rest with
    | none =>
      rw [hm] at h; simp at h
      have : rest = [] := by
        cases rest with
        | nil => rfl
        | cons x xs =>
          exfalso
          unfold firstMinBy at hm
          cases h2 : firstMinBy rank xs with
          | none => rw [h2] at hm; simp at hm
          | some y => rw [h2] at hm; by_cases h3 : rank y < rank x <;>
              simp [h3] at hm
      subst this
      simp at ht
      simp [h, ht]
    | some w =>
      rw [hm] at h
      by_cases hlt : rank w < rank r
      · simp only [if_pos hlt, Option.some.injEq] at h
        rcases List.mem_cons.mp ht with h1 | h2
        · rw [h1, ← h]; exact Nat.le_of_lt hlt
        · rw [← h]; exact ih w hm t h2
      · simp only [if_neg hlt, Option.some.injEq] at h
        rcases List.mem_cons.mp ht with h1 | h2
        · rw [h1, ← h]
        · rw [← h]; exact Nat.le_trans (Nat.le_of_not_lt hlt) (ih w hm t h2)

theorem not_decide_le (a b : Nat) : (!(decide (a ≤ b))) = decide (b < a) := by
  by_cases h : a ≤ b
  · simp [h, Nat.not_lt.mpr h]
  · simp [h, Nat.not_le.mp h]

theorem not_decide_lt (a b : Nat) : (!(decide (a < b))) = decide (b ≤ a) := by
  by_cases h : a < b
  · simp [h, Nat.not_le.mpr h]
  · simp [h, Nat.not_lt.mp h]

theorem all_pre_eq {α κ : Type} [DecidableEq κ] (key : α → κ) (c : α → Bool)
    (r : α) :
    ∀ l : List α,
      (l.all fun s => !(decide (key s = key r) && c s)) =
        ((l.filter fun s => decide (key s = key r)).all fun s => !(c s)) := by
  intro l
  induction l with
  | nil => rfl
  | cons s l ih =>
    by_cases hks : key s = key r
    · simp [List.all_cons, List.filter_cons, hks, ih]
    · simp [List.all_cons, List.filter_cons, hks, ih]

/-- `stableKeep` written as two conditions on the same-key rows only:
the candidate's rank is strictly below every earlier same-key row and
at most every later same-key row. -/
theorem stableKeep_eq {α κ : Type} [DecidableEq κ] (key : α → κ)
    (rank : α → Nat) (pre : List α) (r : α) (suf : List α) :
    stableKeep key rank pre r suf =
      (((pre.filter fun s => decide (key s = key r)).all
          fun s => decide (rank r < rank s))
        && ((suf.filter fun s => decide (key s = key r)).all
          fun s => decide (rank r ≤ rank s))) := by
  unfold stableKeep
  rw [all_pre_eq key (fun s => decide (rank s ≤ rank r)) r pre,
      all_pre_eq key (fun s => decide (rank s < rank r)) r suf]
  congr 1
  · refine congrArg _ ?_
    funext s
    exact not_decide_le (rank s) (rank r)
  · refine congrArg _ ?_
    funext s
    exact not_decide_lt (rank s) (rank r)


/-- Characterization of the window dedup restricted to one key `k`:
provided the keep-condition agrees with `stableKeep` on rows of key
`k`, the kept rows of key `k` are exactly the first minimal-rank row
of the key group — unless an earlier-context row of the same key is at
least as good, in which case nothing of key `k` is kept. -/
theorem selAux_filter_key {α κ : Type} [DecidableEq κ] (key : α → κ)
    (rank : α → Nat) (keepF : List α → α → List α → Bool) (k : κ)
    (hk : ∀ pre r suf, key r = k →
      keepF pre r suf = stableKeep key rank pre r suf) :
    ∀ (l pre : List α),
      (selAux keepF pre l).filter (fun x => decide (key x = k)) =
        match firstMinBy rank (l.filter (fun x => decide (key x = k))) with
        | none => []
        | some w =>
          if (pre.filter (fun x => decide (key x = k))).all
              (fun s => decide (rank w < rank s)) then [w] else [] := by
  intro l
  induction l with
  | nil => intro pre; simp [selAux_nil, List.filter_nil, firstMinBy]
  | cons r suf ih =>
    intro pre
    by_cases hr : key r = k
    · subst hr
      have hpre : (pre ++ [r]).filter (fun x => decide (key x = key r)) =
          pre.filter (fun x => decide (key x = key r)) ++ [r] := by
        simp [List.filter_append, List.filter_cons]
      have hcons : (r :: suf).filter (fun x => decide (key x = key r)) =
          r :: suf.filter (fun x => decide (key x = key r)) := by
        simp [List.filter_cons]
      rw [selAux_cons, List.filter_append, hk pre r suf rfl,
          stableKeep_eq, ih (pre ++ [r]), hpre, hcons]
      cases hm : firstMinBy rank
          (suf.filter (fun x => decide (key x = key r))) with
      | none =>
        have hG := firstMinBy_eq_none rank _ hm
        rw [hG]
        cases hp : (pre.filter (fun x => decide (key x = key r))).all
            (fun s => decide (rank r < rank s)) with
        | true => simp [firstMinBy, hp, List.filter_cons]
        | false => simp [firstMinBy, hp, List.filter_cons]
      | some w =>
        have hw_mem := firstMinBy_mem rank _ w hm
        have hw_le := firstMinBy_le rank _ w hm
        have hfm : firstMinBy rank
            (r :: suf.filter (fun x => decide (key x = key r))) =
            if rank w < rank r then some w else some r := by
          unfold firstMinBy
          rw [hm]
        by_cases hwr : rank w < rank r
        · have hsufall : ((suf.filter (fun x => decide (key x = key r))).all
              (fun s => decide (rank r ≤ rank s))) = false := by
            rw [List.all_eq_false]
            exact ⟨w, hw_mem, by simp [Nat.not_le.mpr hwr]⟩
          rw [hfm, if_pos hwr, hsufall]
          cases hp : (pre.filter (fun x => decide (key x = key r))).all
              (fun s => decide (rank w < rank s)) with
          | true => simp [hp, hwr, List.all_append]
          | false => simp [hp, List.all_append]
        · have hsufall : ((suf.filter (fun x => decide (key x = key r))).all
              (fun s => decide (rank r ≤ rank s))) = true := by
            rw [List.all_eq_true]
            intro s hs
            exact decide_eq_true
              (Nat.le_trans (Nat.le_of_not_lt hwr) (hw_le s hs))
          have hwrd : decide (rank w < rank r) = false := by
            simp [hwr]
          rw [hfm, if_neg hwr, hsufall]
          cases hp : (pre.filter (fun x => decide (key x = key r))).all
              (fun s => decide (rank r < rank s)) with
          | true => simp [hp, hwrd, List.all_append, List.filter_cons]
          | false => simp [hp, hwrd, List.all_append, List.filter_cons]
    · have hpre2 : (pre ++ [r]).filter (fun x => decide (key x = k)) =
          pre.filter (fun x => decide (key x = k)) := by
        simp [List.filter_append, List.filter_cons, hr]
      have hcons2 : (r :: suf).filter (fun x => decide (key x = k)) =
          suf.filter (fun x => decide (key x = k)) := by
        simp [List.filter_cons, hr]
      have hdrop : (if keepF pre r suf then [r] else []).filter
          (fun x => decide (key x = k)) = [] := by
        cases keepF pre r suf <;> simp [hr]
      rw [selAux_cons, List.filter_append, hdrop, List.nil_append,
          ih (pre ++ [r]), hpre2, hcons2]

/-- When the keep-condition is identically true on rows of key `k`
(the fan-out exemption), every row of key `k` survives. -/
theorem selAux_filter_keepAll {α κ : Type} [DecidableEq κ] (key : α → κ)
    (keepF : List α → α → List α → Bool) (k : κ)
    (hk : ∀ pre r suf, key r = k → keepF pre r suf = true) :
    ∀ (l pre : List α),
      (selAux keepF pre l).filter (fun x => decide (key x = k)) =
        l.filter (fun x => decide (key x = k)) := by
  intro l
  induction l with
  | nil => intro pre; simp [selAux_nil]
  | cons r suf ih =>
    intro pre
    by_cases hr : key r = k
    · rw [selAux_cons, List.filter_append, hk pre r suf hr]
      simp [List.filter_cons, hr, ih (pre ++ [r])]
    · have hdrop : (if keepF pre r suf then [r] else []).filter
          (fun x => decide (key x = k)) = [] := by
        cases keepF pre r suf <;> simp [hr]
      rw [selAux_cons, List.filter_append, hdrop, List.nil_append,
          ih (pre ++ [r])]
      simp [List.filter_cons, hr]

/-- Node dedup restricted to one `id`: exactly the first row of the
group attaining the minimal filename rank (and nothing when the `id`
does not occur). -/
theorem nodesDedup_filter_eq (rows : List NodeRow) (k : String) :
    (nodesDedup rows).filter (fun x => decide (x.id = k)) =
      (firstMinBy nodeRank (rows.filter (fun x => decide (x.id = k)))).toList := by
  have h := selAux_filter_key NodeRow.id nodeRank
    (stableKeep NodeRow.id nodeRank) k (fun _ _ _ _ => rfl) rows []
  rw [nodesDedup, h]
  cases firstMinBy nodeRank (rows.filter fun x => decide (x.id = k)) <;> simp

/-- Edge dedup restricted to one non-exempt key: exactly the first
row of the group attaining the minimal predicate rank. -/
theorem edgesQualify_filter_eq (rows : List EdgeRow) (k : String × String)
    (hex : exemptKey k = false) :
    (edgesQualify rows).filter (fun e => decide (edgeKey e = k)) =
      (firstMinBy edgeRank (rows.filter (fun e => decide (edgeKey e = k)))).toList := by
  have hk : ∀ pre r suf, edgeKey r = k →
      edgeKeepF pre r suf = stableKeep edgeKey edgeRank pre r suf := by
    intro pre r suf hkey
    unfold edgeKeepF
    rw [hkey, hex]
    simp
  have h := selAux_filter_key edgeKey edgeRank edgeKeepF k hk rows []
  rw [edgesQualify, h]
  cases firstMinBy edgeRank (rows.filter fun e => decide (edgeKey e = k)) <;> simp

/-- Edge dedup restricted to one fan-out exempt key: every row of the
group survives the `QUALIFY` stage. -/
theorem edgesQualify_filter_exempt (rows : List EdgeRow)
    (k : String × String) (hex : exemptKey k = true) :
    (edgesQualify rows).filter (fun e => decide (edgeKey e = k)) =
      rows.filter (fun e => decide (edgeKey e = k)) := by
  have hk : ∀ pre r suf, edgeKey r = k → edgeKeepF pre r suf = true := by
    intro pre r suf hkey
    unfold edgeKeepF
    rw [hkey, hex]
    simp
  exact selAux_filter_keepAll edgeKey edgeKeepF k hk rows []

theorem pairwise_ne_of_filter_len {α κ : Type} [DecidableEq κ] (f : α → κ) :
    ∀ l : List α,
      (∀ k, (l.filter (fun a => decide (f a = k))).length ≤ 1) →
      l.Pairwise (fun a b => f a ≠ f b) := by
  intro l
  induction l with
  | nil => intro _; exact List.Pairwise.nil
  | cons a l ih =>
    intro h
    refine List.pairwise_cons.mpr ⟨?_, ih fun k => ?_⟩
    · intro b hb hab
      have h1 := h (f a)
      rw [List.filter_cons] at h1
      simp only [decide_eq_true_eq, eq_self_iff_true, if_true] at h1
      have hbmem : b ∈ l.filter (fun x => decide (f x = f a)) :=
        List.mem_filter.mpr ⟨hb, by simp [hab]⟩
      have : 1 ≤ (l.filter (fun x => decide (f x = f a))).length :=
        List.length_pos.mpr (List.ne_nil_of_mem hbmem)
      simp only [List.length_cons] at h1
      omega
    · have h1 := h k
      rw [List.filter_cons] at h1
      by_cases hak : decide (f a = k) = true
      · rw [if_pos hak] at h1
        simp only [List.length_cons] at h1
        omega
      · rw [if_neg hak] at h1
        exact h1

theorem pairwise_exempt_of_filter_len {α κ : Type} [DecidableEq κ]
    (f : α → κ) (E : κ → Bool) :
    ∀ l : List α,
      (∀ k, E k = false → (l.filter (fun a => decide (f a = k))).length ≤ 1) →
      l.Pairwise (fun a b => f a = f b → E (f a) = true) := by
  intro l
  induction l with
  | nil => intro _; exact List.Pairwise.nil
  | cons a l ih =>
    intro h
    refine List.pairwise_cons.mpr ⟨?_, ih fun k hk => ?_⟩
    · intro b hb hab
      cases hE : E (f a) with
      | true => rfl
      | false =>
        exfalso
        have h1 := h (f a) hE
        rw [List.filter_cons] at h1
        simp only [decide_eq_true_eq, eq_self_iff_true, if_true] at h1
        have hbmem : b ∈ l.filter (fun x => decide (f x = f a)) :=
          List.mem_filter.mpr ⟨hb, by simp [hab]⟩
        have : 1 ≤ (l.filter (fun x => decide (f x = f a))).length :=
          List.length_pos.mpr (List.ne_nil_of_mem hbmem)
        simp only [List.length_cons] at h1
        omega
    · have h1 := h k hk
      rw [List.filter_cons] at h1
      by_cases hak : decide (f a = k) = true
      · rw [if_pos hak] at h1
        simp only [List.length_cons] at h1
        omega
      · rw [if_neg hak] at h1
        exact h1

theorem all_filter_other {α κ : Type} [DecidableEq κ] (key : α → κ)
    (g : α → Bool) (r : α) (c : α → Bool)
    (hkey : ∀ s, key s = key r → g s = true) :
    ∀ l : List α,
      ((l.filter g).all fun s => !(decide (key s = key r) && c s)) =
        (l.all fun s => !(decide (key s = key r) && c s)) := by
  intro l
  induction l with
  | nil => rfl
  | cons s l ih =>
    by_cases hks : key s = key r
    · rw [List.filter_cons, if_pos (hkey s hks), List.all_cons,
          List.all_cons, ih]
    · cases hgs : g s with
      | true =>
        rw [List.filter_cons, if_pos hgs, List.all_cons, List.all_cons, ih]
      | false =>
        rw [List.filter_cons, if_neg (by simp [hgs]), ih, List.all_cons]
        have hd : decide (key s = key r) = false := by simp [hks]
        rw [hd]
        simp

/-- Removing whole key groups (rows of keys other than `key r`, or all
of them) does not change `stableKeep` for a surviving row `r`, as long
as every row of `r`'s own key group is retained. -/
theorem stableKeep_filter {α κ : Type} [DecidableEq κ] (key : α → κ)
    (rank : α → Nat) (g : α → Bool) (pre : List α) (r : α) (suf : List α)
    (hkey : ∀ s, key s = key r → g s = true) :
    stableKeep key rank (pre.filter g) r (suf.filter g) =
      stableKeep key rank pre r suf := by
  unfold stableKeep
  rw [all_filter_other key g r _ hkey pre, all_filter_other key g r _ hkey suf]

/-- The hard-pruning `DELETE` commutes with the `QUALIFY` dedup: the
pruning condition is a function of the dedup key, so it removes whole
key groups and never separates a winner from its competitors. -/
theorem selAux_prune_comm :
    ∀ (l pre : List EdgeRow),
      (selAux edgeKeepF pre l).filter (fun e => !pruneKey (edgeKey e)) =
        selAux edgeKeepF (pre.filter (fun e => !pruneKey (edgeKey e)))
          (l.filter (fun e => !pruneKey (edgeKey e))) := by
  intro l
  induction l with
  | nil => intro pre; simp [selAux_nil]
  | cons r suf ih =>
    intro pre
    cases hg : pruneKey (edgeKey r) with
    | true =>
      have h1 : (if edgeKeepF pre r suf then [r] else []).filter
          (fun e => !pruneKey (edgeKey e)) = [] := by
        cases edgeKeepF pre r suf <;> simp [hg]
      have h2 : (r :: suf).filter (fun e => !pruneKey (edgeKey e)) =
          suf.filter (fun e => !pruneKey (edgeKey e)) := by
        simp [List.filter_cons, hg]
      have h3 : (pre ++ [r]).filter (fun e => !pruneKey (edgeKey e)) =
          pre.filter (fun e => !pruneKey (edgeKey e)) := by
        simp [List.filter_append, List.filter_cons, hg]
      rw [selAux_cons, List.filter_append, h1, List.nil_append,
          ih (pre ++ [r]), h3, h2]
    | false =>
      have hkey : ∀ s : EdgeRow, edgeKey s = edgeKey r →
          (!pruneKey (edgeKey s)) = true := by
        intro s hs
        rw [hs, hg]
        rfl
      have hkeep : edgeKeepF
          (pre.filter (fun e => !pruneKey (edgeKey e))) r
          (suf.filter (fun e => !pruneKey (edgeKey e))) =
          edgeKeepF pre r suf := by
        unfold edgeKeepF
        rw [stableKeep_filter edgeKey edgeRank
          (fun e => !pruneKey (edgeKey e)) pre r suf hkey]
      have h2 : (r :: suf).filter (fun e => !pruneKey (edgeKey e)) =
          r :: suf.filter (fun e => !pruneKey (edgeKey e)) := by
        simp [List.filter_cons, hg]
      have h3 : (pre ++ [r]).filter (fun e => !pruneKey (edgeKey e)) =
          pre.filter (fun e => !pruneKey (edgeKey e)) ++ [r] := by
        simp [List.filter_append, List.filter_cons, hg]
      rw [selAux_cons, List.filter_append, ih (pre ++ [r]), h3, h2,
          selAux_cons, hkeep]
      congr 1
      cases edgeKeepF pre r suf <;> simp [hg]

/-! ### Multi-valued field encoding -/

/-- Split a character list at every pipe character. -/
def splitPipe : List Char → List (List Char)
  | [] => [[]]
  | c :: cs =>
    if c = '|' then [] :: splitPipe cs
    else
      match splitPipe cs with
      | [] => [[c]]
      | p :: ps => (c :: p) :: ps

/-- The parts of a pipe-separated multi-valued field (spec §3 encodes
list-valued fields such as `xref` as pipe-separated strings). -/
def pipeParts (s : String) : List String :=
  (splitPipe s.data).map String.mk

/-! ### Concrete rows used by counterexamples and witnesses -/

/-- An edge whose predicate is `METPO:2000103`, on a non-exempt key. -/
def edgeMetpo : EdgeRow := mkE "NCBITaxon:1" "METPO:2000103" "GO:1"

/-- An edge with predicate `biolink:can_be_carried_out_by` on the same
key as `edgeMetpo`. -/
def edgeCarried : EdgeRow := mkE "NCBITaxon:1" "biolink:can_be_carried_out_by" "GO:1"

/-- The superclass edge of the spec's Scenario 2. -/
def edgeSuper : EdgeRow := mkE "NCBITaxon:562" "biolink:superclass_of" "GO:0006096"

/-- The subclass edge of the spec's Scenario 2. -/
def edgeSub : EdgeRow := mkE "NCBITaxon:562" "biolink:subclass_of" "GO:0006096"

/-- A node row from the high-priority merged source, with name,
description and xref `A`. -/
def nodeWinner : NodeRow :=
  ⟨"CHEBI:111503", "biolink:ChemicalEntity", "validamine 7-phosphate",
   "An organophosphate", "A", "chebi", "", "", "3_STAR",
   "data/duckdb/merged-kg_nodes.tsv.gz"⟩

/-- A node row for the same `id` from a satellite source, with xref
`B`. -/
def nodeLoser : NodeRow :=
  ⟨"CHEBI:111503", "", "", "", "B", "uniprot", "", "", "",
   "data/duckdb/uniprot_nodes.tsv.gz"⟩

/-- A node row with an empty name, first in input order. -/
def nodeNoName : NodeRow :=
  ⟨"X:1", "biolink:ChemicalEntity", "", "", "", "a", "", "", "",
   "data/duckdb/bacdive_nodes.tsv.gz"⟩

/-- A node row sharing `nodeNoName`'s id and source rank but carrying
a non-empty name, second in input order. -/
def nodeWithName : NodeRow :=
  ⟨"X:1", "biolink:ChemicalEntity", "Ecoli", "", "", "b", "", "", "",
   "data/duckdb/mediadive_nodes.tsv.gz"⟩

/-- Input for the EC chain: one protein in two proteomes of the same
taxon, annotated with one EC number. -/
def ecChainInput : List EdgeRow :=
  [mkE "Proteomes:UP1" "biolink:derives_from" "NCBITaxon:562",
   mkE "Proteomes:UP2" "biolink:derives_from" "NCBITaxon:562",
   mkE "UniprotKB:X" "biolink:derives_from" "Proteomes:UP1",
   mkE "UniprotKB:X" "biolink:derives_from" "Proteomes:UP2",
   mkE "UniprotKB:X" "biolink:enables" "EC:1.1.1.1"]

/-- The chain input used by the shard witness (the Scenario 5 edge
set, restated so the witness is self-contained). -/
def chebiShardInput : List EdgeRow :=
  [mkE "Proteomes:UP1" "biolink:derives_from" "NCBITaxon:562",
   mkE "UniprotKB:X" "biolink:derives_from" "Proteomes:UP1",
   mkE "UniprotKB:X" "biolink:participates_in" "RHEA:R1",
   mkE "RHEA:R1" "biolink:has_output" "CHEBI:C1"]

/-! ### Claim theorems -/

/-- C1 (counterexample).  The claim's rank table places
`METPO:2000103` at rank 3, below `biolink:can_be_carried_out_by` at
rank 4 — but on a non-exempt key carrying both predicates the code's
survivor is the `biolink:can_be_carried_out_by` edge, because the
`CASE` in the scripts does not mention `METPO:2000103` at all. -/
theorem edge_metpo_rank_counterexample :
    exemptKey (edgeKey edgeMetpo) = false
    ∧ claimPredRank edgeMetpo.predicate < claimPredRank edgeCarried.predicate
    ∧ edgeMetpo ≠ edgeCarried
    ∧ edgesQualify [edgeMetpo, edgeCarried] = [edgeCarried] := by decide

/-- C1 (amended).  For every input edge table and every non-exempt
`(subject, object)` key, the kept rows of that key are exactly the
first input row attaining the minimal rank of the code's predicate
table (`has_chemical_role` 1, `subclass_of` 2, `capable_of` 3,
`can_be_carried_out_by` 4, `superclass_of` 5, everything else —
including `METPO:2000103` — 6; ties broken by input row order). -/
theorem edge_dedup_survivor_first_min_rank (rows : List EdgeRow)
    (k : String × String) (hex : exemptKey k = false) :
    (edgesQualify rows).filter (fun e => decide (edgeKey e = k)) =
      (firstMinBy edgeRank
        (rows.filter (fun e => decide (edgeKey e = k)))).toList :=
  edgesQualify_filter_eq rows k hex

/-- C1 (witness).  Scenario 2: a key carrying both `subclass_of` and
`superclass_of` keeps the `subclass_of` edge. -/
theorem edge_dedup_survivor_subclass_witness :
    (edgesQualify [edgeSuper, edgeSub]).filter
      (fun e => decide (edgeKey e = ("NCBITaxon:562", "GO:0006096"))) =
      [edgeSub] := by
  have h := edge_dedup_survivor_first_min_rank [edgeSuper, edgeSub]
    ("NCBITaxon:562", "GO:0006096") (by decide)
  rw [h]
  decide

/-- C2.  No two rows of the merged node output share an `id`: the
`ROW_NUMBER ... PARTITION BY id ... rn = 1` dedup keeps exactly one
row per occurring `id`. -/
theorem merged_nodes_ids_distinct (rows : List NodeRow) :
    (nodesDedup rows).Pairwise (fun a b => a.id ≠ b.id) := by
  apply pairwise_ne_of_filter_len NodeRow.id
  intro k
  rw [nodesDedup_filter_eq rows k]
  cases firstMinBy nodeRank (rows.filter fun x => decide (x.id = k)) <;> simp

/-- C3.  No edge whose subject starts with `UniprotKB:` and whose
object starts with `NCBITaxon:` survives to the merged edge output:
the `DELETE` removes every such row after the dedup. -/
theorem merged_edges_no_uniprot_taxon (rows : List EdgeRow) :
    ∀ e ∈ mergedEdges rows,
      (strStarts "UniprotKB:" e.subject
        && strStarts "NCBITaxon:" e.object) = false := by
  intro e he
  have h := (List.mem_filter.mp he).2
  rw [Bool.not_eq_true'] at h
  exact h

/-- C3 (witness). -/
theorem merged_edges_no_uniprot_taxon_witness :
    (strStarts "UniprotKB:" (mkE "NCBITaxon:5" "p" "CHEBI:2").subject
      && strStarts "NCBITaxon:" (mkE "NCBITaxon:5" "p" "CHEBI:2").object)
      = false :=
  merged_edges_no_uniprot_taxon [mkE "NCBITaxon:5" "p" "CHEBI:2"]
    (mkE "NCBITaxon:5" "p" "CHEBI:2") (by decide)

/-- C4.  In the merged edge output two distinct rows agreeing on
`(subject, object, predicate)` exist only when the key's prefix pair
is fan-out exempt; and on exempt keys every input row survives both
the `QUALIFY` dedup and the `DELETE` (so every distinct predicate of
the group is preserved). -/
theorem merged_edges_triple_unique_unless_exempt (rows : List EdgeRow) :
    (mergedEdges rows).Pairwise (fun a b =>
        a.subject = b.subject → a.object = b.object →
        a.predicate = b.predicate →
        exemptKey (a.subject, a.object) = true)
    ∧ ∀ e ∈ rows, exemptKey (edgeKey e) = true → e ∈ mergedEdges rows := by
  constructor
  · have hq : (edgesQualify rows).Pairwise
        (fun a b => edgeKey a = edgeKey b → exemptKey (edgeKey a) = true) := by
      apply pairwise_exempt_of_filter_len edgeKey exemptKey
      intro k hk
      rw [edgesQualify_filter_eq rows k hk]
      cases firstMinBy edgeRank (rows.filter fun e => decide (edgeKey e = k))
        <;> simp
    have hp : ((edgesQualify rows).filter
        (fun e => !pruneKey (edgeKey e))).Pairwise
        (fun a b => edgeKey a = edgeKey b → exemptKey (edgeKey a) = true) :=
      List.Pairwise.sublist (List.filter_sublist (edgesQualify rows)) hq
    unfold mergedEdges
    refine hp.imp ?_
    intro a b h hs ho _
    have hke : edgeKey a = edgeKey b := by
      unfold edgeKey
      rw [hs, ho]
    exact h hke
  · intro e he hex
    have h1 : e ∈ (edgesQualify rows).filter
        (fun x => decide (edgeKey x = edgeKey e)) := by
      rw [edgesQualify_filter_exempt rows (edgeKey e) hex]
      exact List.mem_filter.mpr ⟨he, by simp⟩
    have h2 : e ∈ edgesQualify rows := List.mem_of_mem_filter h1
    refine List.mem_filter.mpr ⟨h2, ?_⟩
    have hpf : pruneKey (edgeKey e) = false := by
      cases hpk : pruneKey (edgeKey e) with
      | false => rfl
      | true =>
        rw [exempt_of_prune_false (edgeKey e) hpk] at hex
        exact absurd hex (by simp)
    simp [hpf]

/-- C4 (witness).  Scenario 3: both predicates of an exempt
taxon-chemical pair survive to the output. -/
theorem merged_edges_exempt_kept_witness :
    mkE "NCBITaxon:562" "METPO:2000006" "CHEBI:17234" ∈
      mergedEdges
        [mkE "NCBITaxon:562" "biolink:consumes" "CHEBI:17234",
         mkE "NCBITaxon:562" "METPO:2000006" "CHEBI:17234"] :=
  (merged_edges_triple_unique_unless_exempt
    [mkE "NCBITaxon:562" "biolink:consumes" "CHEBI:17234",
     mkE "NCBITaxon:562" "METPO:2000006" "CHEBI:17234"]).2
    (mkE "NCBITaxon:562" "METPO:2000006" "CHEBI:17234")
    (by decide) (by decide)

/-- C5 (counterexample).  Two input rows share an id; the loser's
xref part `B` is absent from the output row's xref, so multi-valued
fields are not the set-union over the key group — the whole winning
row is emitted unchanged. -/
theorem node_xref_union_counterexample :
    nodesDedup [nodeWinner, nodeLoser] = [nodeWinner]
    ∧ nodeLoser.id = nodeWinner.id
    ∧ "B" ∈ pipeParts nodeLoser.xref
    ∧ "B" ∉ pipeParts nodeWinner.xref := by decide

/-- C5 (amended).  The node dedup output is a sublist of the input:
every output row is one input row taken whole, so all its fields —
scalar and multi-valued alike — are the winner's own values. -/
theorem node_dedup_row_taken_whole (rows : List NodeRow) :
    (nodesDedup rows).Sublist rows :=
  selAux_sublist (stableKeep NodeRow.id nodeRank) rows []

/-- C6 (counterexample).  Two rows of equal source rank where only
the second carries a non-empty name: the code keeps the first
(nameless) row, so presence of a name is not part of the priority. -/
theorem node_name_tiebreak_counterexample :
    nodeRank nodeNoName = nodeRank nodeWithName
    ∧ nodeNoName.id = nodeWithName.id
    ∧ nodeNoName.name = ""
    ∧ nodeWithName.name ≠ ""
    ∧ nodesDedup [nodeNoName, nodeWithName] = [nodeNoName] := by decide

/-- C6 (amended).  Per id, the surviving node row is exactly the
first input row attaining the minimal filename rank (`filename LIKE
'data/duckdb/merged%'` ranks 1, everything else 2); name,
description, xref and source name play no role. -/
theorem node_dedup_filename_rank_only (rows : List NodeRow) (k : String) :
    (nodesDedup rows).filter (fun x => decide (x.id = k)) =
      (firstMinBy nodeRank (rows.filter (fun x => decide (x.id = k)))).toList :=
  nodesDedup_filter_eq rows k

/-- C7.  On the Scenario 5 edge set, the chain script of
`unnamed/part_008` produces nothing (its final join compares the RHEA
subject of a CHEBI edge with the UniprotKB column of `Step2`, which
can never match), while the corrected `create_feat_CHEBI.sql` chain
produces exactly the pair `(NCBITaxon:562, CHEBI:C1)` the spec
requires. -/
theorem chain_reduction_scenario5_eval :
    p8ChebiJoined scenario5 = []
    ∧ cfChebiJoined scenario5 = [("NCBITaxon:562", "CHEBI:C1")] := by decide

/-- C8 (counterexample).  The EC chain table of
`duckdb_select_genome_feat.sql` has three columns and no `DISTINCT`:
on this input it contains the same row twice, so not every derived
chain table is a distinct pair-table. -/
theorem ec_chain_duplicate_rows_counterexample :
    gfECJoined ecChainInput =
      [("NCBITaxon:562", "UniprotKB:X", "EC:1.1.1.1"),
       ("NCBITaxon:562", "UniprotKB:X", "EC:1.1.1.1")]
    ∧ ¬ (gfECJoined ecChainInput).Nodup := by decide

/-- C8 (amended).  The CHEBI chain output of `create_feat_CHEBI.sql`
is a distinct pair-table, and for every hash function its two
hash-partitioned shards are pairwise disjoint with set-union equal to
the distinct pair set. -/
theorem chebi_chain_distinct_and_sharded (rows : List EdgeRow)
    (h : String → Nat) :
    (cfChebiJoined rows).Nodup
    ∧ (∀ p, p ∈ cfChebiJoined rows ↔
        (p ∈ cfPart1 rows h ∨ p ∈ cfPart2 rows h))
    ∧ (∀ p, p ∈ cfPart1 rows h → p ∉ cfPart2 rows h) := by
  refine ⟨List.nodup_dedup _, fun p => ?_, fun p h1 h2 => ?_⟩
  · constructor
    · intro hp
      rcases Nat.mod_two_eq_zero_or_one (h p.1) with h0 | h1
      · refine Or.inl ?_
        unfold cfPart1
        rw [List.mem_dedup]
        exact List.mem_filter.mpr ⟨hp, by simp [h0]⟩
      · refine Or.inr ?_
        unfold cfPart2
        rw [List.mem_dedup]
        exact List.mem_filter.mpr ⟨hp, by simp [h1]⟩
    · intro hp
      rcases hp with hp | hp
      · unfold cfPart1 at hp
        rw [List.mem_dedup] at hp
        exact List.mem_of_mem_filter hp
      · unfold cfPart2 at hp
        rw [List.mem_dedup] at hp
        exact List.mem_of_mem_filter hp
  · unfold cfPart1 at h1
    unfold cfPart2 at h2
    rw [List.mem_dedup] at h1 h2
    have e0 := (List.mem_filter.mp h1).2
    have e1 := (List.mem_filter.mp h2).2
    simp only [decide_eq_true_eq] at e0 e1
    omega

/-- C8 (witness).  On the Scenario 5 edge set with the constant-zero
hash, the single output pair lands in shard 1 and not in shard 2. -/
theorem chebi_chain_sharded_witness :
    ("NCBITaxon:562", "CHEBI:C1") ∉ cfPart2 chebiShardInput (fun _ => 0) :=
  (chebi_chain_distinct_and_sharded chebiShardInput (fun _ => 0)).2.2
    ("NCBITaxon:562", "CHEBI:C1") (by decide)

/-- C10.  Applying the UniprotKB-to-NCBITaxon `DELETE` before the
per-key dedup (`clean_edges.sql` order) produces exactly the same
surviving edges, in the same order, as deduplicating first and
deleting afterwards (`mega_merge.sh` order): the pruning condition is
a function of the dedup key, so it removes whole key groups. -/
theorem prune_dedup_commute (rows : List EdgeRow) :
    mergedEdges rows = mergedEdgesDeleteFirst rows := by
  unfold mergedEdges mergedEdgesDeleteFirst edgesQualify
  exact selAux_prune_comm rows []
